import Mathlib

/-!
Verification of the pagination and layout engine of `add-staves`
(`src/add_staves/app.py`).

The embedding models PDF content blocks by their cropbox geometry over ℚ
(Python computes over ints and floats; all quantities appearing here are
exact decimal literals, so ℚ is a faithful carrier).  The fallible parts of
the renderer (the division by `len(page)` on line 99 of the source) are
modelled with `Option`: `none` stands for the `ZeroDivisionError` raised
there.
-/

/-- Geometry of one content block: the cropbox attributes `height`, `width`,
`left` and `top` read by the source. -/
structure Block where
  height : ℚ
  width : ℚ
  left : ℚ
  top : ℚ
deriving DecidableEq

/-- The resolved numeric configuration passed to `getHeight` / `printPage`
by `main` (all CLI numeric options except `shift`, which the source passes
separately to `printPage`). -/
structure Cfg where
  innerSpacing : ℚ
  outerSpacing : ℚ
  topMargin : ℚ
  bottomMargin : ℚ
  leftMargin : ℚ
  pageHeight : ℚ
  pageWidth : ℚ
deriving DecidableEq

/-- One system: the ordered list of content blocks stacked for one unit of
score (in `main`, always `[score, staves]` or `[staves, score]`). -/
abbrev Sys := List Block

/-- Source lines 78-86: total height of PAGE. -/
def getHeight (page : List Sys) (innerSpacing outerSpacing topMargin bottomMargin : ℚ) : ℚ :=
  (page.length : ℚ) * innerSpacing
    + ((page.length : ℚ) - 1) * outerSpacing
    + topMargin
    + bottomMargin
    + (page.flatten.map Block.height).sum

/-- The fixed staff-block width constant `538.582461` that lines 108, 110
and 114 of the source compare block widths against. -/
def staffWidth : ℚ := 538.582461

/-- One drawing operation emitted by the renderer: the block merged onto the
canvas and the translation passed to `merge_translated_page`. -/
structure DrawOp where
  block : Block
  tx : ℚ
  ty : ℚ
deriving DecidableEq

/-- Source lines 107-120: the inner loop of `printPage` over the blocks of
one system.  `pageLen`, `outerIndex` and `sysLen` are `len(page)`,
`outerIndex` and `len(system)`; the ℕ argument is `innerIndex`.  Returns
the emitted draw operations and the final value of the running `height`
cursor. -/
def renderSystem (cfg : Cfg) (shift : ℚ) (dropFirst dropLast : Bool)
    (pageLen outerIndex sysLen : ℕ) : ℕ → List Block → ℚ → List DrawOp × ℚ
  | _, [], height => ([], height)
  | innerIndex, b :: rest, height =>
    if dropFirst ∧ b.width = staffWidth ∧ outerIndex = 0 then
      renderSystem cfg shift dropFirst dropLast pageLen outerIndex sysLen (innerIndex + 1) rest height
    else if dropLast ∧ b.width = staffWidth ∧ outerIndex + 1 = pageLen then
      renderSystem cfg shift dropFirst dropLast pageLen outerIndex sysLen (innerIndex + 1) rest height
    else
      let op : DrawOp :=
        ⟨b, cfg.leftMargin - b.left + (if b.width = staffWidth then shift else 0), height - b.top⟩
      let h1 := height - b.height
      let h2 := if innerIndex + 1 ≠ sysLen then h1 - cfg.innerSpacing else h1
      let r := renderSystem cfg shift dropFirst dropLast pageLen outerIndex sysLen (innerIndex + 1) rest h2
      (op :: r.1, r.2)

/-- Source lines 106-122: the outer loop of `printPage` over the systems of
the page.  `raggedOuterSpacing` is the value computed on line 99; the
spacing subtracted between systems is line 122's
`outerSpacing if ragged else raggedOuterSpacing`. -/
def renderPage (cfg : Cfg) (ragged : Bool) (raggedOuterSpacing shift : ℚ)
    (dropFirst dropLast : Bool) (pageLen : ℕ) : ℕ → List Sys → ℚ → List DrawOp × ℚ
  | _, [], height => ([], height)
  | outerIndex, system :: rest, height =>
    let r1 := renderSystem cfg shift dropFirst dropLast pageLen outerIndex system.length 0 system height
    let h2 := if outerIndex + 1 ≠ pageLen then
        r1.2 - (if ragged then cfg.outerSpacing else raggedOuterSpacing)
      else r1.2
    let r2 := renderPage cfg ragged raggedOuterSpacing shift dropFirst dropLast pageLen (outerIndex + 1) rest h2
    (r1.1 ++ r2.1, r2.2)

/-- Source lines 89-122: `printPage`.  Line 99 divides by `len(page)` before
anything is drawn, so an empty page raises `ZeroDivisionError`; that failure
is the `none` result.  Otherwise the result is the list of draw operations
and the final cursor value. -/
def printPage (page : List Sys) (cfg : Cfg) (ragged : Bool) (shift : ℚ)
    (dropFirst dropLast : Bool) : Option (List DrawOp × ℚ) :=
  if page.length = 0 then none
  else
    let pageH := getHeight page cfg.innerSpacing cfg.outerSpacing cfg.topMargin cfg.bottomMargin
    let height := max pageH cfg.pageHeight
    let raggedOuterSpacing := cfg.outerSpacing + (cfg.pageHeight - pageH) / (page.length : ℚ)
    some (renderPage cfg ragged raggedOuterSpacing shift dropFirst dropLast
      page.length 0 page (height - cfg.topMargin))

/-- State of the packing loop (source lines 234-276): the finalized pages
and the page currently being grown.  In the source, `pages` is the list
`done ++ [cur]` and `pageIndex` always points at the last entry. -/
structure PackSt where
  done : List (List Sys)
  cur : List Sys
deriving DecidableEq

/-- The `pages` list of the source corresponding to a packing state. -/
def pagesOf (st : PackSt) : List (List Sys) := st.done ++ [st.cur]

/-- Source lines 249-258: the `case None` (auto-fit) arm of the packing
loop, run over the remaining systems. -/
def packAuto (cfg : Cfg) : PackSt → List Sys → PackSt
  | st, [] => st
  | st, s :: rest =>
    if getHeight (st.cur ++ [s]) cfg.innerSpacing cfg.outerSpacing cfg.topMargin cfg.bottomMargin
        ≤ cfg.pageHeight then
      packAuto cfg ⟨st.done, st.cur ++ [s]⟩ rest
    else
      packAuto cfg ⟨st.done ++ [st.cur], [s]⟩ rest

/-- Source lines 259-261: the `case []` (single page) arm of the packing
loop. -/
def packSingle : PackSt → List Sys → PackSt
  | st, [] => st
  | st, s :: rest => packSingle ⟨st.done, st.cur ++ [s]⟩ rest

/-- Source lines 262-273: the `case _` (grouped) arm, with `groupIndex`
carried explicitly.  When `groupIndex == len(groups)` the source sets
`groups = None` and decrements `systemIndex`, so the same system is
re-processed by the auto-fit arm; here that is the direct call to
`packAuto` on `s :: rest`.  When the current page already holds more than
`groups[groupIndex]` systems, no arm of the source's if-chain matches and
the system is silently skipped. -/
def packGrouped (cfg : Cfg) (gs : List ℤ) : ℕ → PackSt → List Sys → PackSt
  | _, st, [] => st
  | gi, st, s :: rest =>
    if gi = gs.length then
      packAuto cfg st (s :: rest)
    else if (st.cur.length : ℤ) < gs.getD gi 0 then
      packGrouped cfg gs gi ⟨st.done, st.cur ++ [s]⟩ rest
    else if (st.cur.length : ℤ) = gs.getD gi 0 then
      packGrouped cfg gs (gi + 1) ⟨st.done ++ [st.cur], [s]⟩ rest
    else
      packGrouped cfg gs gi st rest

/-- Source lines 243-276: the whole packing loop, dispatching on the parsed
`groups` option exactly as the `match groups` statement does. -/
def pack (systems : List Sys) (groups : Option (List ℤ)) (cfg : Cfg) : PackSt :=
  match groups with
  | none => packAuto cfg ⟨[], []⟩ systems
  | some [] => packSingle ⟨[], []⟩ systems
  | some gs => packGrouped cfg gs 0 ⟨[], []⟩ systems

/-- Source line 231: pair every score page with the shared staff block,
staves first when `above` is set. -/
def pairSystems (scorePages : List Block) (staves : Block) (above : Bool) : List Sys :=
  scorePages.map (fun score => if above then [staves, score] else [score, staves])

/-- Source lines 281-295: render every packed page with the per-page flags
chosen by `main` (`raggedLast` on the final page, `dropFirst` only on the
first, `dropLast` only on the last).  `none` when any page raises. -/
def run (systems : List Sys) (groups : Option (List ℤ)) (cfg : Cfg)
    (ragged raggedLast : Bool) (shift : ℚ) (dropFirst dropLast : Bool) :
    Option (List (List DrawOp × ℚ)) :=
  let pages := pagesOf (pack systems groups cfg)
  pages.enum.mapM (fun ip =>
    printPage ip.2 cfg (if ip.1 + 1 = pages.length then raggedLast else ragged) shift
      (if ip.1 = 0 then dropFirst else false)
      (if ip.1 + 1 = pages.length then dropLast else false))

-- Basic lemmas about `getHeight` and the packers. --

/-- Flattened block-height sum rewritten as a nested sum over systems. -/
theorem sum_flatten_heights (page : List Sys) :
    (page.flatten.map Block.height).sum
      = (page.map (fun sys => (sys.map Block.height).sum)).sum := by
  induction page with
  | nil => rfl
  | cons sys rest ih => simp [List.flatten_cons, ih, Function.comp_def]

/-- Concatenation of all systems in all pages of a packing state. -/
def joinP (st : PackSt) : List Sys := st.done.flatten ++ st.cur

theorem joinP_pagesOf (st : PackSt) : (pagesOf st).flatten = joinP st := by
  simp [pagesOf, joinP]

theorem packAuto_joinP (cfg : Cfg) (l : List Sys) :
    ∀ st : PackSt, joinP (packAuto cfg st l) = joinP st ++ l := by
  induction l with
  | nil => intro st; simp [packAuto]
  | cons s rest ih =>
    intro st
    by_cases h : getHeight (st.cur ++ [s]) cfg.innerSpacing cfg.outerSpacing cfg.topMargin
        cfg.bottomMargin ≤ cfg.pageHeight
    · rw [packAuto, if_pos h, ih]
      simp [joinP]
    · rw [packAuto, if_neg h, ih]
      simp [joinP]

theorem packSingle_joinP (l : List Sys) :
    ∀ st : PackSt, joinP (packSingle st l) = joinP st ++ l := by
  induction l with
  | nil => intro st; simp [packSingle]
  | cons s rest ih =>
    intro st
    rw [packSingle, ih]
    simp [joinP]

/-- Structural variant of the grouped packer: instead of `groupIndex` into
the full plan it carries the not-yet-consumed suffix of the plan.  Used only
through `packGrouped_eq_suffix`. -/
def packGroupedS (cfg : Cfg) : List ℤ → PackSt → List Sys → PackSt
  | _, st, [] => st
  | [], st, s :: rest => packAuto cfg st (s :: rest)
  | g :: gs2, st, s :: rest =>
    if (st.cur.length : ℤ) < g then
      packGroupedS cfg (g :: gs2) ⟨st.done, st.cur ++ [s]⟩ rest
    else if (st.cur.length : ℤ) = g then
      packGroupedS cfg gs2 ⟨st.done ++ [st.cur], [s]⟩ rest
    else
      packGroupedS cfg (g :: gs2) st rest

theorem packGroupedS_nil (cfg : Cfg) (st : PackSt) (l : List Sys) :
    packGroupedS cfg [] st l = packAuto cfg st l := by
  cases l with
  | nil => rfl
  | cons s rest => rfl

theorem packGrouped_eq_suffix (cfg : Cfg) (gs : List ℤ) (l : List Sys) :
    ∀ (gi : ℕ) (st : PackSt), gi ≤ gs.length →
      packGrouped cfg gs gi st l = packGroupedS cfg (gs.drop gi) st l := by
  induction l with
  | nil =>
    intro gi st _
    cases h : gs.drop gi with
    | nil => rfl
    | cons g gs2 => rfl
  | cons s rest ih =>
    intro gi st hgi
    by_cases he : gi = gs.length
    · subst he
      rw [packGrouped, if_pos rfl, List.drop_length, packGroupedS_nil]
    · have hlt : gi < gs.length := lt_of_le_of_ne hgi he
      have hd : gs.drop gi = gs[gi] :: gs.drop (gi + 1) := List.drop_eq_getElem_cons hlt
      have hgd : gs.getD gi 0 = gs[gi] := List.getD_eq_getElem gs 0 hlt
      rw [packGrouped, if_neg he, hd, packGroupedS, hgd]
      by_cases h1 : (st.cur.length : ℤ) < gs[gi]
      · rw [if_pos h1, if_pos h1, ih gi _ hgi, hd]
      · rw [if_neg h1, if_neg h1]
        by_cases h2 : (st.cur.length : ℤ) = gs[gi]
        · rw [if_pos h2, if_pos h2, ih (gi + 1) _ hlt]
        · rw [if_neg h2, if_neg h2, ih gi _ hgi, hd]

theorem packGroupedS_joinP (cfg : Cfg) (l : List Sys) :
    ∀ (gs : List ℤ) (st : PackSt), (∀ g ∈ gs, 0 < g) →
      (∀ g gs2, gs = g :: gs2 → (st.cur.length : ℤ) ≤ g) →
      joinP (packGroupedS cfg gs st l) = joinP st ++ l := by
  induction l with
  | nil =>
    intro gs st _ _
    cases gs with
    | nil => simp [packGroupedS]
    | cons g gs2 => simp [packGroupedS]
  | cons s rest ih =>
    intro gs st hpos hinv
    cases gs with
    | nil => rw [packGroupedS_nil, packAuto_joinP]
    | cons g gs2 =>
      by_cases h1 : (st.cur.length : ℤ) < g
      · rw [packGroupedS, if_pos h1,
          ih (g :: gs2) _ hpos (by intro g2 gs3 he; injection he with he1 _; subst he1; simp; omega)]
        simp [joinP]
      · by_cases h2 : (st.cur.length : ℤ) = g
        · rw [packGroupedS, if_neg h1, if_pos h2,
            ih gs2 _ (fun x hx => hpos x (List.mem_cons_of_mem _ hx))
              (by intro g2 gs3 he
                  have := hpos g2 (by rw [he]; exact List.mem_cons_of_mem _ (List.mem_cons_self _ _))
                  simp; omega)]
          simp [joinP]
        · exact absurd (hinv g gs2 rfl) (by omega)

/-- C1 (confirmed).  Coverage and order: for every input score (at least one
system) and every configuration of the packer (auto-fit, empty plan, or a
plan of positive integers), the concatenation of the packed pages in page
order equals the input systems in original order: no duplicates, no
omissions, no reordering. -/
theorem pack_coverage_order (systems : List Sys) (groups : Option (List ℤ)) (cfg : Cfg)
    (hN : 1 ≤ systems.length)
    (hpos : ∀ gs, groups = some gs → ∀ g ∈ gs, 0 < g) :
    (pagesOf (pack systems groups cfg)).flatten = systems := by
  rw [joinP_pagesOf]
  cases groups with
  | none =>
    show joinP (packAuto cfg ⟨[], []⟩ systems) = systems
    rw [packAuto_joinP]
    simp [joinP]
  | some gs =>
    cases gs with
    | nil =>
      show joinP (packSingle ⟨[], []⟩ systems) = systems
      rw [packSingle_joinP]
      simp [joinP]
    | cons g gs2 =>
      show joinP (packGrouped cfg (g :: gs2) 0 ⟨[], []⟩ systems) = systems
      rw [packGrouped_eq_suffix cfg _ systems 0 _ (Nat.zero_le _), List.drop_zero,
        packGroupedS_joinP cfg systems _ _ (hpos _ rfl)
          (by intro g2 gs3 he
              have := hpos _ rfl g2 (by rw [he]; exact List.mem_cons_self _ _)
              simp; omega)]
      simp [joinP]

/-- Closed witness for `pack_coverage_order` at a one-system score with the
plan `[1]` and the default page dimensions. -/
theorem pack_coverage_order_witness :
    ((1 ≤ ([[(⟨10, 100, 0, 0⟩ : Block)]] : List Sys).length) ∧
      (∀ gs, (some [(1 : ℤ)] : Option (List ℤ)) = some gs → ∀ g ∈ gs, 0 < g)) ∧
    (pagesOf (pack [[(⟨10, 100, 0, 0⟩ : Block)]] (some [(1 : ℤ)]) ⟨20, 30, 30, 40, 20, 842, 595⟩)).flatten
      = [[(⟨10, 100, 0, 0⟩ : Block)]] :=
  ⟨⟨by decide, by intro gs h; cases h; decide⟩,
    pack_coverage_order _ _ _ (by decide) (by intro gs h; cases h; decide)⟩

theorem packSingle_eq (l : List Sys) :
    ∀ st : PackSt, packSingle st l = ⟨st.done, st.cur ++ l⟩ := by
  induction l with
  | nil => intro st; simp [packSingle]
  | cons s rest ih => intro st; rw [packSingle, ih]; simp

/-- C6 (confirmed).  Single-page mode: with the explicit empty plan the
packer produces exactly one output page holding all systems, for every
configuration (in particular regardless of `pageHeight`). -/
theorem single_page_mode (systems : List Sys) (cfg : Cfg) :
    pagesOf (pack systems (some []) cfg) = [systems] := by
  show pagesOf (packSingle ⟨[], []⟩ systems) = [systems]
  rw [packSingle_eq]
  simp [pagesOf]

/-- C9 (confirmed).  Required-height formula: for a page with at least one
system, `getHeight` equals outer spacing times one less than the system
count, plus inner spacing times the system count, plus both margins, plus
the total height of every block of every system. -/
theorem getHeight_formula (page : List Sys) (i o t b : ℚ) (h : 1 ≤ page.length) :
    getHeight page i o t b
      = o * ((page.length : ℚ) - 1) + i * (page.length : ℚ) + t + b
        + (page.map (fun sys => (sys.map Block.height).sum)).sum := by
  rw [getHeight, sum_flatten_heights]
  ring

/-- Closed witness for `getHeight_formula` at a one-system page. -/
theorem getHeight_formula_witness :
    (1 ≤ ([[(⟨7, 1, 0, 0⟩ : Block)]] : List Sys).length) ∧
    getHeight [[(⟨7, 1, 0, 0⟩ : Block)]] 2 3 4 5
      = 3 * ((([[(⟨7, 1, 0, 0⟩ : Block)]] : List Sys).length : ℚ) - 1)
        + 2 * (([[(⟨7, 1, 0, 0⟩ : Block)]] : List Sys).length : ℚ) + 4 + 5
        + (([[(⟨7, 1, 0, 0⟩ : Block)]] : List Sys).map (fun sys => (sys.map Block.height).sum)).sum :=
  ⟨by decide, getHeight_formula _ 2 3 4 5 (by decide)⟩

/-- C10 (confirmed).  `printPage` computes the redistributed outer spacing
by dividing by the number of systems before consulting the `ragged` flag, so
on an empty page it fails with a division-by-zero error (`none`) for every
configuration and every combination of flags. -/
theorem printPage_empty_page_none (cfg : Cfg) (ragged : Bool) (shift : ℚ)
    (dropFirst dropLast : Bool) :
    printPage [] cfg ragged shift dropFirst dropLast = none := rfl

-- Renderer lemmas. --

/-- The pair `(ragged, raggedOuterSpacing)` only enters `renderPage` through
the line-122 selection `outerSpacing if ragged else raggedOuterSpacing`, so
a run is the same as a non-ragged run whose spacing argument is the selected
value. -/
theorem renderPage_gap (cfg : Cfg) (ragged : Bool) (rOS shift : ℚ) (dF dL : Bool) (pl : ℕ) :
    ∀ (l : List Sys) (oi : ℕ) (h : ℚ),
      renderPage cfg ragged rOS shift dF dL pl oi l h
        = renderPage cfg false (if ragged then cfg.outerSpacing else rOS) shift dF dL pl oi l h := by
  intro l
  induction l with
  | nil => intro oi h; cases ragged <;> rfl
  | cons sys rest ih =>
    intro oi h
    cases ragged
    · rfl
    · rw [renderPage, renderPage, ih]
      simp

/-- C2 (corrected claim; the selection is the reverse of the claim).  With
the `ragged` flag set, `printPage` places the nominal `outerSpacing` between
consecutive systems; with the flag unset it places the redistributed
`outerSpacing + (pageHeight - requiredHeight) / systemCount`.  Stated via
`renderPage cfg false g`, whose inter-system gap is exactly its spacing
argument `g`. -/
theorem raggedSpacing_selection (page : List Sys) (cfg : Cfg) (shift : ℚ)
    (dF dL : Bool) (hne : page ≠ []) :
    printPage page cfg true shift dF dL
        = some (renderPage cfg false cfg.outerSpacing shift dF dL page.length 0 page
            (max (getHeight page cfg.innerSpacing cfg.outerSpacing cfg.topMargin cfg.bottomMargin)
              cfg.pageHeight - cfg.topMargin))
      ∧
    printPage page cfg false shift dF dL
        = some (renderPage cfg false
            (cfg.outerSpacing
              + (cfg.pageHeight
                  - getHeight page cfg.innerSpacing cfg.outerSpacing cfg.topMargin cfg.bottomMargin)
                / (page.length : ℚ)) shift dF dL page.length 0 page
            (max (getHeight page cfg.innerSpacing cfg.outerSpacing cfg.topMargin cfg.bottomMargin)
              cfg.pageHeight - cfg.topMargin)) := by
  have hlen : ¬ page.length = 0 := by simpa using hne
  constructor
  · simp only [printPage, if_neg hlen]
    rw [renderPage_gap cfg true]
    simp
  · simp only [printPage, if_neg hlen]

/-- Closed witness for `raggedSpacing_selection` at a concrete two-system
page. -/
theorem raggedSpacing_selection_witness :
    (([[(⟨20, 100, 0, 0⟩ : Block)], [(⟨20, 100, 0, 0⟩ : Block)]] : List Sys) ≠ []) ∧
    (printPage [[(⟨20, 100, 0, 0⟩ : Block)], [(⟨20, 100, 0, 0⟩ : Block)]]
          ⟨0, 10, 0, 0, 0, 200, 500⟩ true 0 false false
        = some (renderPage ⟨0, 10, 0, 0, 0, 200, 500⟩ false 10 0 false false 2 0
            [[(⟨20, 100, 0, 0⟩ : Block)], [(⟨20, 100, 0, 0⟩ : Block)]]
            (max (getHeight [[(⟨20, 100, 0, 0⟩ : Block)], [(⟨20, 100, 0, 0⟩ : Block)]] 0 10 0 0)
              (200 : ℚ) - 0))
      ∧
      printPage [[(⟨20, 100, 0, 0⟩ : Block)], [(⟨20, 100, 0, 0⟩ : Block)]]
          ⟨0, 10, 0, 0, 0, 200, 500⟩ false 0 false false
        = some (renderPage ⟨0, 10, 0, 0, 0, 200, 500⟩ false
            (10 + ((200 : ℚ)
                - getHeight [[(⟨20, 100, 0, 0⟩ : Block)], [(⟨20, 100, 0, 0⟩ : Block)]] 0 10 0 0) / 2)
            0 false false 2 0
            [[(⟨20, 100, 0, 0⟩ : Block)], [(⟨20, 100, 0, 0⟩ : Block)]]
            (max (getHeight [[(⟨20, 100, 0, 0⟩ : Block)], [(⟨20, 100, 0, 0⟩ : Block)]] 0 10 0 0)
              (200 : ℚ) - 0))) :=
  ⟨by decide, raggedSpacing_selection _ _ _ _ _ (by decide)⟩

/-- C2 counterexample.  On a concrete two-system page rendered with
`ragged = True`, the second system is drawn at vertical offset 170 — the
nominal gap of 10 — and not at the offset the claim's redistributed
`effectiveOuterSpacing` of 85 would give. -/
theorem raggedSpacing_claim_cex :
    printPage [[(⟨20, 100, 0, 0⟩ : Block)], [(⟨20, 100, 0, 0⟩ : Block)]]
        ⟨0, 10, 0, 0, 0, 200, 500⟩ true 0 false false
      = some ([⟨⟨20, 100, 0, 0⟩, 0, 200⟩, ⟨⟨20, 100, 0, 0⟩, 0, 170⟩], 150)
    ∧ (170 : ℚ) ≠ 200 - 20
        - (10 + ((200 : ℚ)
            - getHeight [[(⟨20, 100, 0, 0⟩ : Block)], [(⟨20, 100, 0, 0⟩ : Block)]] 0 10 0 0) / 2) := by
  constructor
  · norm_num [printPage, renderPage, renderSystem, getHeight, staffWidth]
  · norm_num [getHeight]

-- Cursor arithmetic of the renderer. --

theorem renderSystem_cursor (cfg : Cfg) (shift : ℚ) (pl oi sl : ℕ) :
    ∀ (sys : List Block) (i : ℕ) (h : ℚ), i + sys.length = sl → sys ≠ [] →
      (renderSystem cfg shift false false pl oi sl i sys h).2
        = h - (sys.map Block.height).sum - ((sys.length : ℚ) - 1) * cfg.innerSpacing := by
  intro sys
  induction sys with
  | nil => intro i h _ hne; exact absurd rfl hne
  | cons b rest ih =>
    intro i h hlen _
    simp only [renderSystem, Bool.false_eq_true, false_and, if_false]
    cases rest with
    | nil =>
      have hl : i + 1 = sl := by simpa using hlen
      simp only [renderSystem, if_neg (by omega : ¬ i + 1 ≠ sl)]
      simp
    | cons b2 rest2 =>
      have hne2 : i + 1 ≠ sl := by simp at hlen; omega
      have hlen2 : (i + 1) + (b2 :: rest2).length = sl := by simp at hlen ⊢; omega
      rw [if_pos hne2, ih (i + 1) _ hlen2 (by simp)]
      simp only [List.map_cons, List.sum_cons, List.length_cons]
      push_cast
      ring

theorem renderPage_cursor (cfg : Cfg) (g shift : ℚ) (pl : ℕ) :
    ∀ (l : List Sys) (oi : ℕ) (h : ℚ), oi + l.length = pl → l ≠ [] → (∀ sys ∈ l, sys ≠ []) →
      (renderPage cfg false g shift false false pl oi l h).2
        = h - (l.map (fun sys =>
              (sys.map Block.height).sum + ((sys.length : ℚ) - 1) * cfg.innerSpacing)).sum
          - ((l.length : ℚ) - 1) * g := by
  intro l
  induction l with
  | nil => intro oi h _ hne _; exact absurd rfl hne
  | cons sys rest ih =>
    intro oi h hlen _ hall
    simp only [renderPage, Bool.false_eq_true, if_false]
    cases rest with
    | nil =>
      have hco : ¬ (oi + 1 ≠ pl) := by simp at hlen; omega
      simp only [renderPage, if_neg hco]
      rw [renderSystem_cursor cfg shift pl oi _ sys 0 h (by simp) (hall sys (by simp))]
      simp
      ring
    | cons sys2 rest2 =>
      have hne2 : oi + 1 ≠ pl := by simp at hlen; omega
      rw [if_pos hne2,
        ih (oi + 1) _ (by simp at hlen ⊢; omega) (by simp)
          (fun s hs => hall s (List.mem_cons_of_mem _ hs)),
        renderSystem_cursor cfg shift pl oi _ sys 0 h (by simp) (hall sys (by simp))]
      simp only [List.map_cons, List.sum_cons, List.length_cons]
      push_cast
      ring

theorem sum_extent_two (inner : ℚ) : ∀ (page : List Sys), (∀ sys ∈ page, sys.length = 2) →
    (page.map (fun sys => (sys.map Block.height).sum + ((sys.length : ℚ) - 1) * inner)).sum
      = (page.map (fun sys => (sys.map Block.height).sum)).sum + (page.length : ℚ) * inner := by
  intro page
  induction page with
  | nil => simp
  | cons sys rest ih =>
    intro hall
    have h1 : sys.length = 2 := hall sys (List.mem_cons_self _ _)
    rw [List.map_cons, List.sum_cons, ih (fun s hs => hall s (List.mem_cons_of_mem _ hs)),
      List.map_cons, List.sum_cons, h1]
    simp only [List.length_cons]
    push_cast
    ring

/-- C7 (corrected claim; the drawn extent falls short of the claimed total).
For a non-empty page of two-block systems rendered with the redistributed
spacing (flag unset, drops off), the consumed vertical extent — top margin
plus block heights plus inner gaps plus inter-system gaps plus bottom
margin, read off as canvas height minus final cursor plus bottom margin —
equals `requiredHeight + (N - 1) * (slack / N)`, not
`max(requiredHeight, pageHeight)`. -/
theorem render_extent_sum (page : List Sys) (cfg : Cfg) (shift : ℚ)
    (hne : page ≠ []) (h2 : ∀ sys ∈ page, sys.length = 2) :
    (printPage page cfg false shift false false).map
        (fun r => max (getHeight page cfg.innerSpacing cfg.outerSpacing cfg.topMargin cfg.bottomMargin)
            cfg.pageHeight - r.2 + cfg.bottomMargin)
      = some (getHeight page cfg.innerSpacing cfg.outerSpacing cfg.topMargin cfg.bottomMargin
          + ((page.length : ℚ) - 1)
            * ((cfg.pageHeight
                - getHeight page cfg.innerSpacing cfg.outerSpacing cfg.topMargin cfg.bottomMargin)
              / (page.length : ℚ))) := by
  have hlen : ¬ page.length = 0 := by simpa using hne
  have hsne : ∀ sys ∈ page, sys ≠ [] := by
    intro sys hs
    have := h2 sys hs
    intro hnil
    rw [hnil] at this
    simp at this
  simp only [printPage, if_neg hlen, Option.map_some']
  rw [renderPage_cursor cfg _ shift page.length page 0 _ (by simp) hne hsne,
    sum_extent_two cfg.innerSpacing page h2]
  rw [getHeight, sum_flatten_heights]
  ring_nf

/-- Closed witness for `render_extent_sum` at a one-system page of two
blocks. -/
theorem render_extent_sum_witness :
    ((([[(⟨20, 100, 0, 0⟩ : Block), (⟨30, 100, 0, 0⟩ : Block)]] : List Sys) ≠ []) ∧
      (∀ sys ∈ ([[(⟨20, 100, 0, 0⟩ : Block), (⟨30, 100, 0, 0⟩ : Block)]] : List Sys),
        sys.length = 2)) ∧
    (printPage [[(⟨20, 100, 0, 0⟩ : Block), (⟨30, 100, 0, 0⟩ : Block)]]
          ⟨10, 0, 5, 5, 0, 300, 500⟩ false 0 false false).map
        (fun r => max (getHeight [[(⟨20, 100, 0, 0⟩ : Block), (⟨30, 100, 0, 0⟩ : Block)]] 10 0 5 5)
            (300 : ℚ) - r.2 + 5)
      = some (getHeight [[(⟨20, 100, 0, 0⟩ : Block), (⟨30, 100, 0, 0⟩ : Block)]] 10 0 5 5
          + ((([[(⟨20, 100, 0, 0⟩ : Block), (⟨30, 100, 0, 0⟩ : Block)]] : List Sys).length : ℚ) - 1)
            * (((300 : ℚ)
                - getHeight [[(⟨20, 100, 0, 0⟩ : Block), (⟨30, 100, 0, 0⟩ : Block)]] 10 0 5 5)
              / (([[(⟨20, 100, 0, 0⟩ : Block), (⟨30, 100, 0, 0⟩ : Block)]] : List Sys).length : ℚ))) :=
  ⟨⟨by decide, by decide⟩,
    render_extent_sum [[(⟨20, 100, 0, 0⟩ : Block), (⟨30, 100, 0, 0⟩ : Block)]]
      ⟨10, 0, 5, 5, 0, 300, 500⟩ 0 (by decide) (by decide)⟩

/-- C7 counterexample.  A one-system page with slack 230 under the
redistributing flag: the consumed extent is 70 = requiredHeight, while the
claim says it should equal `max(requiredHeight, pageHeight)` = 300. -/
theorem ragged_sum_cex :
    ((printPage [[(⟨20, 100, 0, 0⟩ : Block), (⟨30, 100, 0, 0⟩ : Block)]]
          ⟨10, 0, 5, 5, 0, 300, 500⟩ false 0 false false).map
        (fun r => max (getHeight [[(⟨20, 100, 0, 0⟩ : Block), (⟨30, 100, 0, 0⟩ : Block)]] 10 0 5 5)
            (300 : ℚ) - r.2 + 5))
      = some 70
    ∧ (70 : ℚ)
        ≠ max (getHeight [[(⟨20, 100, 0, 0⟩ : Block), (⟨30, 100, 0, 0⟩ : Block)]] 10 0 5 5) 300 := by
  constructor
  · norm_num [printPage, renderPage, renderSystem, getHeight, staffWidth]
  · norm_num [getHeight]

-- Which blocks are drawn. --

/-- The blocks of a page that `printPage` actually draws: within each
system, exactly those whose width-and-position does not match the
`dropFirst` / `dropLast` suppression conditions of lines 108-111 (which
test only the system index `outerIndex`, never the slot inside the
system). -/
def keptBlocks (dF dL : Bool) (pl : ℕ) : ℕ → List Sys → List Block
  | _, [] => []
  | oi, sys :: rest =>
      sys.filter (fun b =>
        decide (¬(dF ∧ b.width = staffWidth ∧ oi = 0)
          ∧ ¬(dL ∧ b.width = staffWidth ∧ oi + 1 = pl)))
        ++ keptBlocks dF dL pl (oi + 1) rest

theorem renderSystem_blocks (cfg : Cfg) (shift : ℚ) (dF dL : Bool) (pl oi sl : ℕ) :
    ∀ (sys : List Block) (i : ℕ) (h : ℚ),
      (renderSystem cfg shift dF dL pl oi sl i sys h).1.map DrawOp.block
        = sys.filter (fun b =>
            decide (¬(dF ∧ b.width = staffWidth ∧ oi = 0)
              ∧ ¬(dL ∧ b.width = staffWidth ∧ oi + 1 = pl))) := by
  intro sys
  induction sys with
  | nil => intro i h; rfl
  | cons b rest ih =>
    intro i h
    by_cases hc1 : dF ∧ b.width = staffWidth ∧ oi = 0
    · rw [renderSystem, if_pos hc1, ih, List.filter_cons]
      simp [hc1]
    · by_cases hc2 : dL ∧ b.width = staffWidth ∧ oi + 1 = pl
      · rw [renderSystem, if_neg hc1, if_pos hc2, ih, List.filter_cons]
        simp [hc1, hc2]
      · rw [renderSystem, if_neg hc1, if_neg hc2, List.filter_cons]
        simp [ih, hc1, hc2]

theorem renderPage_blocks (cfg : Cfg) (ragged : Bool) (rOS shift : ℚ) (dF dL : Bool) (pl : ℕ) :
    ∀ (l : List Sys) (oi : ℕ) (h : ℚ),
      (renderPage cfg ragged rOS shift dF dL pl oi l h).1.map DrawOp.block
        = keptBlocks dF dL pl oi l := by
  intro l
  induction l with
  | nil => intro oi h; rfl
  | cons sys rest ih =>
    intro oi h
    simp only [renderPage, keptBlocks, List.map_append, ih, renderSystem_blocks]

/-- C8 (corrected claim; suppression ignores the slot).  The blocks drawn by
`printPage` are exactly `keptBlocks`: with `dropFirst` set, every
staff-width block of the first system of the page is suppressed regardless
of which slot it occupies, and symmetrically for `dropLast` on the last
system; all other blocks are drawn, in order. -/
theorem drop_flags_kept_blocks (page : List Sys) (cfg : Cfg) (ragged : Bool) (shift : ℚ)
    (dF dL : Bool) (hne : page ≠ []) :
    (printPage page cfg ragged shift dF dL).map (fun r => r.1.map DrawOp.block)
      = some (keptBlocks dF dL page.length 0 page) := by
  have hlen : ¬ page.length = 0 := by simpa using hne
  simp only [printPage, if_neg hlen, Option.map_some']
  rw [renderPage_blocks]

/-- Closed witness for `drop_flags_kept_blocks` at a concrete page. -/
theorem drop_flags_kept_blocks_witness :
    (([[(⟨30, 100, 0, 0⟩ : Block), (⟨40, staffWidth, 0, 0⟩ : Block)]] : List Sys) ≠ []) ∧
    (printPage [[(⟨30, 100, 0, 0⟩ : Block), (⟨40, staffWidth, 0, 0⟩ : Block)]]
          ⟨20, 30, 30, 40, 20, 842, 595⟩ true 0 true true).map (fun r => r.1.map DrawOp.block)
      = some (keptBlocks true true
          ([[(⟨30, 100, 0, 0⟩ : Block), (⟨40, staffWidth, 0, 0⟩ : Block)]] : List Sys).length 0
          [[(⟨30, 100, 0, 0⟩ : Block), (⟨40, staffWidth, 0, 0⟩ : Block)]]) :=
  ⟨by decide, drop_flags_kept_blocks _ _ true 0 true true (by decide)⟩

/-- C8 counterexample.  `dropFirst` with the staff block in the second slot
(the `above = False` layout): the staff block of the first system is
suppressed even though it does not occupy the first slot, so it is absent
from the rendered output, contradicting the claim that only a first-slot
staff block is suppressed and all other staff blocks are drawn. -/
theorem dropFirst_slot_cex :
    (printPage [[(⟨30, 100, 0, 0⟩ : Block), (⟨40, staffWidth, 0, 0⟩ : Block)]]
          ⟨20, 30, 30, 40, 20, 842, 595⟩ false 0 true false).map (fun r => r.1.map DrawOp.block)
      = some [(⟨30, 100, 0, 0⟩ : Block)]
    ∧ (⟨40, staffWidth, 0, 0⟩ : Block) ∉ [(⟨30, 100, 0, 0⟩ : Block)] := by
  constructor
  · norm_num [printPage, renderPage, renderSystem, getHeight, staffWidth]
  · norm_num [staffWidth]

-- Auto-fit capacity invariant. --

/-- A packed page is within capacity, or holds at most one system (a lone
over-height system — or the empty first page left behind when the very
first system is over-height). -/
def heightOk (cfg : Cfg) (p : List Sys) : Prop :=
  getHeight p cfg.innerSpacing cfg.outerSpacing cfg.topMargin cfg.bottomMargin ≤ cfg.pageHeight
    ∨ p.length ≤ 1

/-- Consecutive packed pages witness the overflow that started the second
one: adding the second page's first system to the first page would exceed
`pageHeight`. -/
def newPageBoundary (cfg : Cfg) (p q : List Sys) : Prop :=
  cfg.pageHeight
    < getHeight (p ++ q.take 1) cfg.innerSpacing cfg.outerSpacing cfg.topMargin cfg.bottomMargin

/-- Invariant of the auto-fit loop state. -/
def AutoInv (cfg : Cfg) (st : PackSt) : Prop :=
  (∀ p ∈ pagesOf st, heightOk cfg p)
    ∧ List.Chain' (newPageBoundary cfg) (pagesOf st)
    ∧ (st.done ≠ [] → st.cur ≠ [])

theorem take_one_append (cur : List Sys) (s : Sys) (h : cur ≠ []) :
    (cur ++ [s]).take 1 = cur.take 1 := by
  cases cur with
  | nil => exact absurd rfl h
  | cons a l => rfl

theorem packAuto_inv (cfg : Cfg) (l : List Sys) :
    ∀ st : PackSt, AutoInv cfg st → AutoInv cfg (packAuto cfg st l) := by
  induction l with
  | nil => intro st h; exact h
  | cons s rest ih =>
    intro st hinv
    obtain ⟨hok, hch, hne⟩ := hinv
    by_cases h : getHeight (st.cur ++ [s]) cfg.innerSpacing cfg.outerSpacing cfg.topMargin
        cfg.bottomMargin ≤ cfg.pageHeight
    · rw [packAuto, if_pos h]
      apply ih
      refine ⟨?_, ?_, ?_⟩
      · intro p hp
        simp only [pagesOf, List.mem_append, List.mem_singleton] at hp
        rcases hp with hp | hp
        · exact hok p (by simp [pagesOf, hp])
        · subst hp
          exact Or.inl h
      · simp only [pagesOf] at hch ⊢
        rw [List.chain'_append] at hch ⊢
        refine ⟨hch.1, List.chain'_singleton _, ?_⟩
        intro x hx y hy
        simp only [List.head?_cons, Option.mem_def, Option.some_inj] at hy
        subst hy
        have hcur : st.cur ≠ [] := hne (fun hd => by rw [hd] at hx; simp at hx)
        have := hch.2.2 x hx (st.cur) (by simp)
        unfold newPageBoundary at this ⊢
        rwa [take_one_append _ _ hcur]
      · intro _; simp
    · rw [packAuto, if_neg h]
      apply ih
      refine ⟨?_, ?_, ?_⟩
      · intro p hp
        simp only [pagesOf, List.mem_append, List.mem_singleton] at hp
        rcases hp with (hp | hp) | hp
        · exact hok p (by simp [pagesOf, hp])
        · subst hp
          exact hok st.cur (by simp [pagesOf])
        · subst hp
          exact Or.inr (by simp)
      · simp only [pagesOf] at hch ⊢
        rw [List.chain'_append] at hch ⊢
        refine ⟨?_, List.chain'_singleton _, ?_⟩
        · rw [List.chain'_append]
          exact ⟨hch.1, List.chain'_singleton _, hch.2.2⟩
        · intro x hx y hy
          simp only [List.head?_cons, Option.mem_def, Option.some_inj] at hy
          subst hy
          rw [List.getLast?_concat] at hx
          simp only [Option.mem_def, Option.some_inj] at hx
          subst hx
          unfold newPageBoundary
          simpa using not_le.mp h
      · intro _; simp

/-- C3 (corrected claim; the empty first page is a further exception).
Under auto-fit, every packed page is within `pageHeight` (the comparison is
non-strict) or holds at most one system — covering both the lone over-height
system and the empty first page left when the very first system is
over-height; and whenever a new page is started, adding its first system to
the preceding page would have exceeded `pageHeight`. -/
theorem autofit_capacity (systems : List Sys) (cfg : Cfg) :
    (∀ p ∈ pagesOf (pack systems none cfg),
        getHeight p cfg.innerSpacing cfg.outerSpacing cfg.topMargin cfg.bottomMargin
            ≤ cfg.pageHeight
          ∨ p.length ≤ 1)
      ∧ List.Chain'
          (fun p q => cfg.pageHeight
            < getHeight (p ++ q.take 1) cfg.innerSpacing cfg.outerSpacing cfg.topMargin
                cfg.bottomMargin)
          (pagesOf (pack systems none cfg)) := by
  have h0 : AutoInv cfg ⟨[], []⟩ := by
    refine ⟨?_, ?_, ?_⟩
    · intro p hp
      simp only [pagesOf, List.nil_append, List.mem_singleton] at hp
      subst hp
      exact Or.inr (by simp)
    · simp [pagesOf]
    · intro hx; simp at hx
  have h := packAuto_inv cfg systems ⟨[], []⟩ h0
  exact ⟨h.1, h.2.1⟩

/-- C3 counterexample.  With margins exceeding the page height and an
over-height first system, the auto-fit packer leaves an empty first page
whose required height (200) exceeds `pageHeight` (100) even though it holds
no system at all — so the claimed dichotomy (within capacity, or a page
holding a single over-height system) fails. -/
theorem autofit_capacity_cex :
    ¬ (∀ p ∈ pagesOf (pack [[(⟨50, 100, 0, 0⟩ : Block)]] none ⟨0, 0, 200, 0, 0, 100, 500⟩),
        getHeight p 0 0 200 0 ≤ 100 ∨ p.length = 1) := by
  intro hall
  have hp : pagesOf (pack [[(⟨50, 100, 0, 0⟩ : Block)]] none ⟨0, 0, 200, 0, 0, 100, 500⟩)
      = [[], [[(⟨50, 100, 0, 0⟩ : Block)]]] := by
    norm_num [pack, packAuto, pagesOf, getHeight]
  rw [hp] at hall
  have hc := hall [] (by simp)
  norm_num [getHeight] at hc

/-- C4 (code bug).  A score whose very first system alone exceeds
`pageHeight` leaves the empty first page `pages[0]` behind (lines 251-258
append the over-height system to a fresh second page without removing the
empty first one), and rendering that empty page divides by zero on line 99:
the whole run fails instead of completing with the system on its own page as
the specification promises. -/
theorem overheight_first_system_run_fails :
    run (pairSystems [(⟨2000, 500, 0, 0⟩ : Block)] (⟨100, staffWidth, 0, 0⟩ : Block) false)
        none ⟨20, 30, 30, 40, 20, 842, 595⟩ false true 0 false false
      = none := by
  have hp : pagesOf (pack (pairSystems [(⟨2000, 500, 0, 0⟩ : Block)]
        (⟨100, staffWidth, 0, 0⟩ : Block) false) none ⟨20, 30, 30, 40, 20, 842, 595⟩)
      = [[], [[(⟨2000, 500, 0, 0⟩ : Block), (⟨100, staffWidth, 0, 0⟩ : Block)]]] := by
    norm_num [pack, packAuto, pagesOf, getHeight, pairSystems]
  simp only [run, hp]
  simp [List.enum, List.enumFrom, printPage, List.mapM.loop]

-- Grouped-plan exhaustion. --

/-- The pages a plan prescribes: successive chunks of the system list, one
per plan entry. -/
def chunksZ : List ℤ → List Sys → List (List Sys)
  | [], _ => []
  | g :: gs, l => l.take g.toNat :: chunksZ gs (l.drop g.toNat)

/-- The pages the grouped loop actually builds from state `cur`: each page
is filled up to its plan entry, and the system that triggers the closure is
carried onto the next page as its opener. -/
def groupedPages : List ℤ → List Sys → List Sys → List (List Sys)
  | [], _, _ => []
  | g :: gs, cur, l =>
      (cur ++ l.take (g.toNat - cur.length))
        :: groupedPages gs ((l.drop (g.toNat - cur.length)).take 1)
            (l.drop (g.toNat - cur.length + 1))

theorem packGroupedS_fill (cfg : Cfg) (g : ℤ) (gs : List ℤ) :
    ∀ (k : ℕ) (cur : List Sys) (l : List Sys) (done : List (List Sys)),
      (cur.length : ℤ) ≤ g → g.toNat = cur.length + k → k < l.length →
      packGroupedS cfg (g :: gs) ⟨done, cur⟩ l
        = packGroupedS cfg gs ⟨done ++ [cur ++ l.take k], (l.drop k).take 1⟩ (l.drop (k + 1)) := by
  intro k
  induction k with
  | zero =>
    intro cur l done hle htn hlen
    cases l with
    | nil => simp at hlen
    | cons s rest =>
      have hg0 : (0 : ℤ) ≤ g := le_trans (Int.natCast_nonneg _) hle
      have heq : (cur.length : ℤ) = g := by omega
      rw [packGroupedS]
      dsimp only
      rw [if_neg (by omega), if_pos heq]
      simp
  | succ k ih =>
    intro cur l done hle htn hlen
    cases l with
    | nil => simp at hlen
    | cons s rest =>
      have hg0 : (0 : ℤ) ≤ g := le_trans (Int.natCast_nonneg _) hle
      have hlt : (cur.length : ℤ) < g := by omega
      rw [packGroupedS]
      dsimp only
      rw [if_pos hlt,
        ih (cur ++ [s]) rest done (by simp; omega) (by simp; omega) (by simp at hlen ⊢; omega)]
      simp only [List.take_succ_cons, List.drop_succ_cons, List.append_assoc,
        List.singleton_append]

theorem packGroupedS_exhaust (cfg : Cfg) :
    ∀ (gs : List ℤ) (cur : List Sys) (l : List Sys) (done : List (List Sys)),
      gs ≠ [] → (∀ g ∈ gs, 0 < g) →
      (∀ g gs2, gs = g :: gs2 → (cur.length : ℤ) ≤ g) →
      (gs.map Int.toNat).sum - cur.length < l.length →
      packGroupedS cfg gs ⟨done, cur⟩ l
        = packAuto cfg
            ⟨done ++ groupedPages gs cur l,
              (l.drop ((gs.map Int.toNat).sum - cur.length)).take 1⟩
            (l.drop ((gs.map Int.toNat).sum - cur.length + 1)) := by
  intro gs
  induction gs with
  | nil => intro cur l done hne; exact absurd rfl hne
  | cons g gs2 ih =>
    intro cur l done _ hpos hinv hlen
    have hle := hinv g gs2 rfl
    have hg0 : (0 : ℤ) < g := hpos g (List.mem_cons_self _ _)
    have htn : g.toNat = cur.length + (g.toNat - cur.length) := by omega
    have hsum : ((g :: gs2).map Int.toNat).sum = g.toNat + ((gs2.map Int.toNat).sum) := by
      simp
    have hkl : g.toNat - cur.length < l.length := by
      rw [hsum] at hlen
      omega
    rw [packGroupedS_fill cfg g gs2 (g.toNat - cur.length) cur l done hle htn hkl]
    cases gs2 with
    | nil =>
      rw [packGroupedS_nil]
      simp [groupedPages]
    | cons g2 gs3 =>
      have hg2 : (0 : ℤ) < g2 := hpos g2 (List.mem_cons_of_mem _ (List.mem_cons_self _ _))
      have hc2 : ((l.drop (g.toNat - cur.length)).take 1).length = 1 := by
        simp [List.length_take, List.length_drop]
        omega
      rw [ih ((l.drop (g.toNat - cur.length)).take 1) (l.drop (g.toNat - cur.length + 1))
          (done ++ [cur ++ l.take (g.toNat - cur.length)])
          (by simp)
          (fun x hx => hpos x (List.mem_cons_of_mem _ hx))
          (by intro a as he
              injection he with h1 h2
              have hga := hpos g2 (List.mem_cons_of_mem _ (List.mem_cons_self _ _))
              rw [hc2]
              omega)
          (by rw [hc2]
              simp only [List.length_drop]
              rw [hsum] at hlen
              have hs2 : 1 ≤ ((g2 :: gs3).map Int.toNat).sum := by
                simp
                omega
              omega)]
      rw [hc2]
      have hd1 : (l.drop (g.toNat - cur.length + 1)).drop
          (((g2 :: gs3).map Int.toNat).sum - 1)
            = l.drop (((g :: g2 :: gs3).map Int.toNat).sum - cur.length) := by
        rw [List.drop_drop]
        congr 1
        have hs2 : 1 ≤ ((g2 :: gs3).map Int.toNat).sum := by simp; omega
        rw [hsum]
        omega
      have hd2 : (l.drop (g.toNat - cur.length + 1)).drop
          (((g2 :: gs3).map Int.toNat).sum - 1 + 1)
            = l.drop (((g :: g2 :: gs3).map Int.toNat).sum - cur.length + 1) := by
        rw [List.drop_drop]
        congr 1
        have hs2 : 1 ≤ ((g2 :: gs3).map Int.toNat).sum := by simp; omega
        rw [hsum]
        omega
      rw [hd1, hd2]
      congr 1
      simp only [groupedPages, List.append_assoc, List.singleton_append]

theorem groupedPages_take_one : ∀ (gs : List ℤ) (l : List Sys), (∀ g ∈ gs, 0 < g) →
    (gs.map Int.toNat).sum ≤ l.length →
    groupedPages gs (l.take 1) (l.drop 1) = chunksZ gs l := by
  intro gs
  induction gs with
  | nil => intro l _ _; rfl
  | cons g gs2 ih =>
    intro l hpos hlen
    have hg : (0 : ℤ) < g := hpos g (List.mem_cons_self _ _)
    have hs : ((g :: gs2).map Int.toNat).sum = g.toNat + (gs2.map Int.toNat).sum := by simp
    have hl1 : (l.take 1).length = 1 := by
      simp [List.length_take]
      rw [hs] at hlen
      omega
    rw [groupedPages, hl1]
    have h1g : 1 + (g.toNat - 1) = g.toNat := by omega
    have htake : l.take 1 ++ (l.drop 1).take (g.toNat - 1) = l.take g.toNat := by
      rw [← List.take_add, h1g]
    have hdrop1 : (l.drop 1).drop (g.toNat - 1) = l.drop g.toNat := by
      rw [List.drop_drop]
      congr 1
    have hdrop2 : (l.drop 1).drop (g.toNat - 1 + 1) = (l.drop g.toNat).drop 1 := by
      rw [List.drop_drop, List.drop_drop]
      congr 1
      omega
    rw [htake, hdrop1, hdrop2, chunksZ,
      ih (l.drop g.toNat) (fun x hx => hpos x (List.mem_cons_of_mem _ hx))
        (by simp only [List.length_drop]; rw [hs] at hlen; omega)]

theorem groupedPages_nil_cur (gs : List ℤ) (l : List Sys) (hpos : ∀ g ∈ gs, 0 < g)
    (hlen : (gs.map Int.toNat).sum ≤ l.length) :
    groupedPages gs [] l = chunksZ gs l := by
  cases gs with
  | nil => rfl
  | cons g gs2 =>
    have hs : ((g :: gs2).map Int.toNat).sum = g.toNat + (gs2.map Int.toNat).sum := by simp
    have hdrop : l.drop (g.toNat + 1) = (l.drop g.toNat).drop 1 := by
      rw [List.drop_drop]
    rw [groupedPages, chunksZ]
    simp only [List.length_nil, Nat.sub_zero, List.nil_append]
    rw [hdrop,
      groupedPages_take_one gs2 (l.drop g.toNat) (fun x hx => hpos x (List.mem_cons_of_mem _ hx))
        (by simp only [List.length_drop]; rw [hs] at hlen; omega)]

/-- C5 (corrected claim; the transition is one system later).  When a
non-empty positive plan whose entries sum to S is exhausted with systems to
spare, the loop has already placed the system at index S — the one
immediately following the last satisfied group — as the opener of a fresh
page while still in grouped mode, with no height check; the fallback to
auto-fit re-processes only from index S + 1 onward, continuing on that
fresh one-system page.  Formally, the packing equals the grouped chunks
followed by an auto-fit run started from the singleton page `[systems[S]]`
on the remaining systems. -/
theorem pack_grouped_exhaust (gs : List ℤ) (systems : List Sys) (cfg : Cfg)
    (hne : gs ≠ []) (hpos : ∀ g ∈ gs, 0 < g)
    (hlen : (gs.map Int.toNat).sum < systems.length) :
    pack systems (some gs) cfg
      = packAuto cfg
          ⟨chunksZ gs systems, (systems.drop ((gs.map Int.toNat).sum)).take 1⟩
          (systems.drop ((gs.map Int.toNat).sum + 1)) := by
  cases gs with
  | nil => exact absurd rfl hne
  | cons g gs2 =>
    show packGrouped cfg (g :: gs2) 0 ⟨[], []⟩ systems = _
    rw [packGrouped_eq_suffix cfg _ systems 0 _ (Nat.zero_le _), List.drop_zero,
      packGroupedS_exhaust cfg (g :: gs2) [] systems [] (by simp) hpos
        (by intro a as he
            injection he with h1 h2
            have hga := hpos g (List.mem_cons_self _ _)
            simp
            omega)
        (by simpa using hlen)]
    rw [groupedPages_nil_cur (g :: gs2) systems hpos (le_of_lt hlen)]
    simp

/-- Closed witness for `pack_grouped_exhaust`: plan `[1]` over three small
systems. -/
theorem pack_grouped_exhaust_witness :
    (([(1 : ℤ)] ≠ []) ∧ (∀ g ∈ [(1 : ℤ)], 0 < g) ∧
      (([(1 : ℤ)].map Int.toNat).sum
        < ([[(⟨10, 100, 0, 0⟩ : Block)], [(⟨10, 100, 0, 0⟩ : Block)],
            [(⟨10, 100, 0, 0⟩ : Block)]] : List Sys).length)) ∧
    pack [[(⟨10, 100, 0, 0⟩ : Block)], [(⟨10, 100, 0, 0⟩ : Block)], [(⟨10, 100, 0, 0⟩ : Block)]]
        (some [(1 : ℤ)]) ⟨0, 0, 0, 0, 0, 1000, 500⟩
      = packAuto ⟨0, 0, 0, 0, 0, 1000, 500⟩
          ⟨chunksZ [(1 : ℤ)]
              [[(⟨10, 100, 0, 0⟩ : Block)], [(⟨10, 100, 0, 0⟩ : Block)],
                [(⟨10, 100, 0, 0⟩ : Block)]],
            (([[(⟨10, 100, 0, 0⟩ : Block)], [(⟨10, 100, 0, 0⟩ : Block)],
                [(⟨10, 100, 0, 0⟩ : Block)]] : List Sys).drop
              (([(1 : ℤ)].map Int.toNat).sum)).take 1⟩
          (([[(⟨10, 100, 0, 0⟩ : Block)], [(⟨10, 100, 0, 0⟩ : Block)],
              [(⟨10, 100, 0, 0⟩ : Block)]] : List Sys).drop
            (([(1 : ℤ)].map Int.toNat).sum + 1)) :=
  ⟨⟨by decide, by decide, by decide⟩,
    pack_grouped_exhaust [(1 : ℤ)]
      [[(⟨10, 100, 0, 0⟩ : Block)], [(⟨10, 100, 0, 0⟩ : Block)], [(⟨10, 100, 0, 0⟩ : Block)]]
      ⟨0, 0, 0, 0, 0, 1000, 500⟩ (by decide) (by decide) (by decide)⟩

/-- C5 counterexample.  Plan `[1]` over three systems of height 10 on a
1000-high page: the code produces pages `[s0]` and `[s1, s2]` even though
`[s0, s1]` passes the auto-fit height check — so the system at index 1,
immediately following the last satisfied group, was not placed under
auto-fit rules (auto-fit would have appended it to the first page), and the
transition cannot have re-processed it. -/
theorem grouped_exhaustion_cex :
    pagesOf (pack
        [[(⟨10, 100, 0, 0⟩ : Block)], [(⟨10, 100, 0, 0⟩ : Block)], [(⟨10, 100, 0, 0⟩ : Block)]]
        (some [(1 : ℤ)]) ⟨0, 0, 0, 0, 0, 1000, 500⟩)
      = [[[(⟨10, 100, 0, 0⟩ : Block)]],
          [[(⟨10, 100, 0, 0⟩ : Block)], [(⟨10, 100, 0, 0⟩ : Block)]]]
    ∧ getHeight [[(⟨10, 100, 0, 0⟩ : Block)], [(⟨10, 100, 0, 0⟩ : Block)]] 0 0 0 0 ≤ 1000 := by
  constructor
  · norm_num [pack, packGrouped, packAuto, pagesOf, getHeight, List.getD]
  · norm_num [getHeight]
